import Mathlib

/-!
Shallow embedding of `main.py` of the `genre_classification` repository:
the MLflow pipeline orchestrator `go(config)`.

The orchestrator reads a configuration, sets two environment variables,
normalizes the step selector (`config["main"]["execute_steps"]`: either a
comma-separated string, split with Python's `str.split(",")`, or a native
list), and then runs up to six fixed steps in the hard-coded source order
(download, preprocess, check_data, segregate, random_forest, evaluate),
each as `mlflow.run(dir, "main", parameters)`.  Before the random_forest
step it serializes `config["random_forest_pipeline"]` to a YAML file.

The embedding models the run as a trace of events (environment writes,
file writes, sub-process launches) together with an optional failure:
an exception raised by a failing `open`/`write` or by a failing
`mlflow.run` aborts the rest of the function body, which is exactly the
short-circuiting encoded below.  External outcomes (does a given
sub-process fail?  does the config-file write fail?) are supplied by an
`Oracle`.
-/

set_option autoImplicit false

namespace GenreClassification

/-- Python `os.path.join(root, name)` for the relative step-directory names
used in `main.py` (none is absolute, so join is concatenation with `/`). -/
def pyJoin (root name : String) : String := root ++ "/" ++ name

/-- An opaque Python float literal, as it appears in the configuration
(`ks_alpha`, `test_size`, `val_size`).  The orchestrator never computes with
these values, it only passes them through, so they are modelled as opaque
tokens compared by identity. -/
structure PyFloat where
  lit : String
deriving DecidableEq, Repr

/-- A parameter value passed to `mlflow.run`: the orchestrator passes
strings, ints, floats and booleans from the configuration. -/
inductive PVal where
| s : String → PVal
| i : Int → PVal
| f : PyFloat → PVal
| b : Bool → PVal
deriving DecidableEq, Repr

/-- The step selector `config["main"]["execute_steps"]`: either a
comma-separated string (command-line override) or a native list. -/
inductive ExecuteSteps where
| commaString : String → ExecuteSteps
| steplist : List String → ExecuteSteps
deriving DecidableEq, Repr

/-- The `main` section of the configuration. -/
structure MainConfig where
  project_name : String
  experiment_name : String
  execute_steps : ExecuteSteps
  random_seed : Int
deriving DecidableEq, Repr

/-- The `data` section of the configuration. -/
structure DataConfig where
  file_url : String
  reference_dataset : String
  ks_alpha : PyFloat
  test_size : PyFloat
  val_size : PyFloat
  stratify : Bool
deriving DecidableEq, Repr

/-- The `random_forest` sub-section of `random_forest_pipeline`.
Modelled from the spec: the configuration file itself is not part of the
sources, so only the key the orchestrator reads
(`config["random_forest_pipeline"]["random_forest"]["random_state"]`) is
modelled. -/
structure RandomForestSection where
  random_state : Int
deriving DecidableEq, Repr

/-- The `random_forest_pipeline` section of the configuration.
Modelled from the spec: "nested sub-config for the training step, plus the
name under which the trained model is exported". -/
structure RFPipelineConfig where
  random_forest : RandomForestSection
  export_artifact : String
deriving DecidableEq, Repr

/-- The whole configuration object handed to `go`. -/
structure Config where
  main : MainConfig
  data : DataConfig
  random_forest_pipeline : RFPipelineConfig
deriving DecidableEq, Repr

/-- An observable action performed by the orchestrator. -/
inductive Event where
| setEnv (name value : String)
| fileWrite (path content : String)
| runStep (dir entry : String) (params : List (String × PVal))
deriving DecidableEq, Repr

/-- A fatal error raised during the run (an uncaught Python exception):
either the training-config file could not be written (`OSError` from
`open`/`write`) or a launched step's sub-process failed
(`mlflow.projects.ExecutionException`). -/
inductive Failure where
| writeFailed (path : String)
| stepFailed (dir : String)
deriving DecidableEq, Repr

/-- The environment's behaviour: whether the training-config file write
fails, and whether the sub-process launched from a given directory fails. -/
structure Oracle where
  writeFails : Bool
  stepFails : String → Bool

/-- The state of a run: the trace of events so far, plus the pending fatal
error if one has been raised. -/
abbrev RunState := List Event × Option Failure

/-- Sequencing in the presence of an uncaught exception: once a failure is
pending, no further statement of the function body executes. -/
def act (f : List Event → RunState) : RunState → RunState
| (tr, some e) => (tr, some e)
| (tr, none) => f tr

/-- `mlflow.run(dir, entry, parameters)`: launches the sub-process (the
launch itself is recorded) and raises iff the oracle says the sub-process
fails. -/
def mlflowRun (o : Oracle) (dir entry : String) (params : List (String × PVal)) :
    RunState → RunState :=
  act fun tr =>
    (tr ++ [Event.runStep dir entry params],
     if o.stepFails dir then some (Failure.stepFailed dir) else none)

/-- `with open(path, "w+") as fp: fp.write(content)`: raises (with no write
event) iff the oracle says the write fails. -/
def writeTrainingConfig (o : Oracle) (path content : String) :
    RunState → RunState :=
  act fun tr =>
    if o.writeFails then (tr, some (Failure.writeFailed path))
    else (tr ++ [Event.fileWrite path content], none)

/-- Python `str.split(sep)` for a one-character separator, on the character
list of the string: no trimming, empty tokens kept, `split` of the empty
string is `[""]`. -/
def splitOnChar (sep : Char) : List Char → List (List Char)
| [] => [[]]
| c :: cs =>
  if c = sep then [] :: splitOnChar sep cs
  else
    match splitOnChar sep cs with
    | [] => [[c]]
    | t :: ts => (c :: t) :: ts

/-- Lines 19-24 of `main.py`: normalize the step selector.  A string is
split on commas (Python `"...".split(",")`); a list is used as is. -/
def stepsToExecute (cfg : Config) : List String :=
  match cfg.main.execute_steps with
  | ExecuteSteps.commaString s => (splitOnChar ',' s.data).map String.mk
  | ExecuteSteps.steplist l => l

/-- The fixed path `os.path.abspath("random_forest_config.yml")` to which
the training configuration is serialized (modelled as the fixed relative
name; `abspath` only prepends the constant working directory). -/
def modelConfigPath : String := "random_forest_config.yml"

/-- The hard-coded order in which `main.py` tests and runs the steps. -/
def stepOrder : List String :=
  ["download", "preprocess", "check_data", "segregate", "random_forest", "evaluate"]

/-- Decimal digit character, `chr(48 + d)`. -/
def digitChar (d : Nat) : Char := Char.ofNat (48 + d)

/-- The decimal numeral of a natural number, as Python prints it. -/
def natLit (n : Nat) : List Char :=
  if n = 0 then ['0'] else ((Nat.digits 10 n).map digitChar).reverse

/-- The decimal numeral of an integer, as Python prints it. -/
def intLit (i : Int) : List Char :=
  if i < 0 then '-' :: natLit i.natAbs else natLit i.natAbs

/-- `OmegaConf.to_yaml(config["random_forest_pipeline"])`, character level.
Modelled from the spec: the YAML rendering of the modelled
`random_forest_pipeline` section (nested mapping, two-space indent,
`key: value` lines, trailing newline, insertion order). -/
def toYamlRFPChars (rf : RFPipelineConfig) : List Char :=
  "random_forest:".data
    ++ '\n' :: ("  random_state: ".data ++ intLit rf.random_forest.random_state)
    ++ '\n' :: ("export_artifact: ".data ++ rf.export_artifact.data)
    ++ ['\n']

/-- `OmegaConf.to_yaml(config["random_forest_pipeline"])` as a string. -/
def toYamlRFP (rf : RFPipelineConfig) : String := String.mk (toYamlRFPChars rf)

/-- Parameters of the download step (`main.py` lines 29-38). -/
def downloadParams (cfg : Config) : List (String × PVal) :=
  [("file_url", PVal.s cfg.data.file_url),
   ("artifact_name", PVal.s "raw_data.parquet"),
   ("artifact_type", PVal.s "raw_data"),
   ("artifact_description", PVal.s "Data as downloaded")]

/-- Parameters of the preprocess step (`main.py` lines 41-50). -/
def preprocessParams : List (String × PVal) :=
  [("input_artifact", PVal.s "raw_data.parquet:latest"),
   ("artifact_name", PVal.s "preprocessed_data.csv"),
   ("artifact_type", PVal.s "preprocessed_data"),
   ("artifact_description", PVal.s "Data after preprocessing")]

/-- Parameters of the check_data step (`main.py` lines 57-65). -/
def checkDataParams (cfg : Config) : List (String × PVal) :=
  [("reference_artifact", PVal.s cfg.data.reference_dataset),
   ("sample_artifact", PVal.s "preprocessed_data.csv:latest"),
   ("ks_alpha", PVal.f cfg.data.ks_alpha)]

/-- Parameters of the segregate step (`main.py` lines 70-81). -/
def segregateParams (cfg : Config) : List (String × PVal) :=
  [("input_artifact", PVal.s "preprocessed_data.csv:latest"),
   ("artifact_root", PVal.s "data"),
   ("artifact_type", PVal.s "segregated_data"),
   ("test_size", PVal.f cfg.data.test_size),
   ("random_state", PVal.i cfg.random_forest_pipeline.random_forest.random_state),
   ("stratify", PVal.b cfg.data.stratify)]

/-- Parameters of the random_forest step (`main.py` lines 91-102). -/
def randomForestParams (cfg : Config) : List (String × PVal) :=
  [("train_data", PVal.s "data_train.csv:latest"),
   ("model_config", PVal.s modelConfigPath),
   ("export_artifact", PVal.s cfg.random_forest_pipeline.export_artifact),
   ("random_seed", PVal.i cfg.main.random_seed),
   ("val_size", PVal.f cfg.data.val_size),
   ("stratify", PVal.b cfg.data.stratify)]

/-- Parameters of the evaluate step (`main.py` lines 105-112). -/
def evaluateParams (cfg : Config) : List (String × PVal) :=
  [("model_export", PVal.s (cfg.random_forest_pipeline.export_artifact ++ ":latest")),
   ("test_data", PVal.s "data_test.csv:latest")]

/-- One `if "<name>" in steps_to_execute:` block of `main.py`: the step's
name, the directory handed to `mlflow.run`, the optional file write
performed just before the launch (only random_forest has one), and the
parameter mapping. -/
structure StepEntry where
  name : String
  dir : String
  preWrite : Option (String × String)
  params : List (String × PVal)
deriving DecidableEq, Repr

/-- The `if "download" ...` block, `main.py` lines 27-38. -/
def downloadEntry (cfg : Config) (rootPath : String) : StepEntry :=
  ⟨"download", pyJoin rootPath "download", none, downloadParams cfg⟩

/-- The `if "preprocess" ...` block, `main.py` lines 40-50. -/
def preprocessEntry (rootPath : String) : StepEntry :=
  ⟨"preprocess", pyJoin rootPath "preprocess", none, preprocessParams⟩

/-- The `if "check_data" ...` block, `main.py` lines 52-65. -/
def checkDataEntry (cfg : Config) (rootPath : String) : StepEntry :=
  ⟨"check_data", pyJoin rootPath "check_data", none, checkDataParams cfg⟩

/-- The `if "segregate" ...` block, `main.py` lines 67-81. -/
def segregateEntry (cfg : Config) (rootPath : String) : StepEntry :=
  ⟨"segregate", pyJoin rootPath "segregate", none, segregateParams cfg⟩

/-- The `if "random_forest" ...` block, `main.py` lines 83-102: serializes
the training configuration, then launches the step. -/
def randomForestEntry (cfg : Config) (rootPath : String) : StepEntry :=
  ⟨"random_forest", pyJoin rootPath "random_forest",
    some (modelConfigPath, toYamlRFP cfg.random_forest_pipeline),
    randomForestParams cfg⟩

/-- The `if "evaluate" ...` block, `main.py` lines 104-112. -/
def evaluateEntry (cfg : Config) (rootPath : String) : StepEntry :=
  ⟨"evaluate", pyJoin rootPath "evaluate", none, evaluateParams cfg⟩

/-- The six `if` blocks of `main.py` lines 27-112, in source order. -/
def stepEntries (cfg : Config) (rootPath : String) : List StepEntry :=
  [downloadEntry cfg rootPath,
   preprocessEntry rootPath,
   checkDataEntry cfg rootPath,
   segregateEntry cfg rootPath,
   randomForestEntry cfg rootPath,
   evaluateEntry cfg rootPath]

/-- Execution of one `if` block: if the step's name is in the selector,
perform the optional config-file write and then launch the step. -/
def chainStep (o : Oracle) (steps : List String) (st : RunState) (e : StepEntry) :
    RunState :=
  if e.name ∈ steps then
    mlflowRun o e.dir "main" e.params
      (match e.preWrite with
       | some pc => writeTrainingConfig o pc.1 pc.2 st
       | none => st)
  else st

/-- The body of `go` after the selector has been normalized: set the two
wandb environment variables, then execute the six blocks in order. -/
def goSteps (cfg : Config) (rootPath : String) (o : Oracle) (steps : List String) :
    RunState :=
  (stepEntries cfg rootPath).foldl (chainStep o steps)
    ([Event.setEnv "WANDB_PROJECT" cfg.main.project_name,
      Event.setEnv "WANDB_RUN_GROUP" cfg.main.experiment_name], none)

/-- `go(config)` of `main.py`: `rootPath` is
`hydra.utils.get_original_cwd()`, `o` supplies the outcomes of the
external actions. -/
def go (cfg : Config) (rootPath : String) (o : Oracle) : RunState :=
  goSteps cfg rootPath o (stepsToExecute cfg)

/-- The directories of the sub-processes launched in a trace, in order. -/
def runDirs (tr : List Event) : List String :=
  tr.filterMap fun e =>
    match e with
    | Event.runStep d _ _ => some d
    | _ => none

/-- The sub-process launches of a trace: directory, entry point,
parameters, in order. -/
def runEvts (tr : List Event) : List (String × String × List (String × PVal)) :=
  tr.filterMap fun e =>
    match e with
    | Event.runStep d en ps => some (d, en, ps)
    | _ => none

/-!
## Machinery: a recursive normal form for the step chain

`chainRes` computes, by structural recursion on the entry list, the events
appended by the fold of `chainStep` starting from an error-free state, and
the first failure raised (if any).
-/

/-- Events appended and first failure of running a list of step entries
from an error-free state. -/
def chainRes (o : Oracle) (s : List String) : List StepEntry → List Event × Option Failure
| [] => ([], none)
| e :: es =>
  if e.name ∈ s then
    match e.preWrite with
    | some pc =>
      if o.writeFails then ([], some (Failure.writeFailed pc.1))
      else if o.stepFails e.dir then
        ([Event.fileWrite pc.1 pc.2, Event.runStep e.dir "main" e.params],
         some (Failure.stepFailed e.dir))
      else
        (Event.fileWrite pc.1 pc.2 :: Event.runStep e.dir "main" e.params
           :: (chainRes o s es).1,
         (chainRes o s es).2)
    | none =>
      if o.stepFails e.dir then
        ([Event.runStep e.dir "main" e.params], some (Failure.stepFailed e.dir))
      else
        (Event.runStep e.dir "main" e.params :: (chainRes o s es).1,
         (chainRes o s es).2)
  else chainRes o s es

theorem chainStep_absorb (o : Oracle) (s : List String) (tr : List Event)
    (f : Failure) (e : StepEntry) :
    chainStep o s (tr, some f) e = (tr, some f) := by
  rcases e with ⟨n, d, pw, ps⟩
  cases pw <;>
    simp only [chainStep, mlflowRun, writeTrainingConfig, act] <;>
    split <;> rfl

theorem foldl_chainStep_absorb (o : Oracle) (s : List String) (tr : List Event)
    (f : Failure) (l : List StepEntry) :
    l.foldl (chainStep o s) (tr, some f) = (tr, some f) := by
  induction l with
  | nil => rfl
  | cons e es ih => rw [List.foldl_cons, chainStep_absorb, ih]

theorem foldl_chainStep_eq_chainRes (o : Oracle) (s : List String) :
    ∀ (l : List StepEntry) (tr : List Event),
      l.foldl (chainStep o s) (tr, none)
        = (tr ++ (chainRes o s l).1, (chainRes o s l).2) := by
  intro l
  induction l with
  | nil => intro tr; simp [chainRes]
  | cons e es ih =>
    intro tr
    rcases e with ⟨n, d, pw, ps⟩
    by_cases hn : n ∈ s
    · cases pw with
      | none =>
        by_cases hf : o.stepFails d
        · simp [List.foldl_cons, chainStep, mlflowRun, act, hn, hf, chainRes,
            foldl_chainStep_absorb]
        · simp [List.foldl_cons, chainStep, mlflowRun, act, hn, hf, chainRes, ih]
      | some pc =>
        by_cases hw : o.writeFails
        · simp [List.foldl_cons, chainStep, mlflowRun, writeTrainingConfig, act,
            hn, hw, chainRes, foldl_chainStep_absorb]
        · by_cases hf : o.stepFails d
          · simp [List.foldl_cons, chainStep, mlflowRun, writeTrainingConfig, act,
              hn, hw, hf, chainRes, foldl_chainStep_absorb]
          · simp [List.foldl_cons, chainStep, mlflowRun, writeTrainingConfig, act,
              hn, hw, hf, chainRes, ih]
    · simp [List.foldl_cons, chainStep, hn, chainRes, ih]

/-- The run decomposed: environment writes, then the chain result. -/
theorem go_eq_chainRes (cfg : Config) (rootPath : String) (o : Oracle) :
    go cfg rootPath o
      = ([Event.setEnv "WANDB_PROJECT" cfg.main.project_name,
          Event.setEnv "WANDB_RUN_GROUP" cfg.main.experiment_name]
           ++ (chainRes o (stepsToExecute cfg) (stepEntries cfg rootPath)).1,
         (chainRes o (stepsToExecute cfg) (stepEntries cfg rootPath)).2) := by
  rw [go, goSteps, foldl_chainStep_eq_chainRes]

theorem chainRes_append_fail (o : Oracle) (s : List String) (xs ys : List StepEntry)
    (f : Failure) (h : (chainRes o s xs).2 = some f) :
    chainRes o s (xs ++ ys) = chainRes o s xs := by
  induction xs with
  | nil => simp [chainRes] at h
  | cons e es ih =>
    rcases e with ⟨n, d, pw, ps⟩
    by_cases hn : n ∈ s
    · cases pw with
      | none =>
        by_cases hf : o.stepFails d
        · simp [chainRes, hn, hf]
        · simp only [chainRes, List.cons_append, if_pos hn, if_neg hf] at h ⊢
          simp only [List.append_eq]
          rw [ih h]
      | some pc =>
        by_cases hw : o.writeFails
        · simp [chainRes, hn, hw]
        · by_cases hf : o.stepFails d
          · simp [chainRes, hn, hw, hf]
          · simp only [chainRes, List.cons_append, if_pos hn, if_neg hw,
              if_neg hf] at h ⊢
            simp only [List.append_eq]
            rw [ih h]
    · simp only [chainRes, List.cons_append, if_neg hn] at h ⊢
      exact ih h

theorem chainRes_append_ok (o : Oracle) (s : List String) (xs ys : List StepEntry)
    (h : (chainRes o s xs).2 = none) :
    chainRes o s (xs ++ ys)
      = ((chainRes o s xs).1 ++ (chainRes o s ys).1, (chainRes o s ys).2) := by
  induction xs with
  | nil => simp [chainRes]
  | cons e es ih =>
    rcases e with ⟨n, d, pw, ps⟩
    by_cases hn : n ∈ s
    · cases pw with
      | none =>
        by_cases hf : o.stepFails d
        · simp [chainRes, hn, hf] at h
        · simp only [chainRes, List.cons_append, if_pos hn, if_neg hf] at h ⊢
          have := ih h
          simp [this]
      | some pc =>
        by_cases hw : o.writeFails
        · simp [chainRes, hn, hw] at h
        · by_cases hf : o.stepFails d
          · simp [chainRes, hn, hw, hf] at h
          · simp only [chainRes, List.cons_append, if_pos hn, if_neg hw,
              if_neg hf] at h ⊢
            have := ih h
            simp [this]
    · simp only [chainRes, List.cons_append, if_neg hn] at h ⊢
      exact ih h

/-- The events of an all-successful run of some step entries: for each
selected entry, the optional file write followed by the launch. -/
def okEvents (s : List String) : List StepEntry → List Event
| [] => []
| e :: es =>
  (if e.name ∈ s then
    (match e.preWrite with
     | some pc => [Event.fileWrite pc.1 pc.2]
     | none => []) ++ [Event.runStep e.dir "main" e.params]
   else []) ++ okEvents s es

theorem chainRes_allok (o : Oracle) (s : List String) (l : List StepEntry)
    (hs : ∀ e ∈ l, e.name ∈ s → o.stepFails e.dir = false)
    (hw : ∀ e ∈ l, e.name ∈ s → e.preWrite ≠ none → o.writeFails = false) :
    chainRes o s l = (okEvents s l, none) := by
  induction l with
  | nil => rfl
  | cons e es ih =>
    have hse : ∀ e' ∈ es, e'.name ∈ s → o.stepFails e'.dir = false := by
      intro e' he' hn
      exact hs e' (List.mem_cons_of_mem _ he') hn
    have hwe : ∀ e' ∈ es, e'.name ∈ s → e'.preWrite ≠ none → o.writeFails = false := by
      intro e' he' hn hp
      exact hw e' (List.mem_cons_of_mem _ he') hn hp
    rcases e with ⟨n, d, pw, ps⟩
    by_cases hn : n ∈ s
    · have hd : o.stepFails d = false := hs ⟨n, d, pw, ps⟩ (List.mem_cons_self _ _) hn
      cases pw with
      | none => simp [chainRes, okEvents, hn, hd, ih hse hwe]
      | some pc =>
        have hwf : o.writeFails = false :=
          hw ⟨n, d, some pc, ps⟩ (List.mem_cons_self _ _) hn (by simp)
        simp [chainRes, okEvents, hn, hwf, hd, ih hse hwe]
    · simp [chainRes, okEvents, hn, ih hse hwe]

theorem runDirs_append (a b : List Event) :
    runDirs (a ++ b) = runDirs a ++ runDirs b := by
  simp [runDirs, List.filterMap_append]

theorem runDirs_okEvents (s : List String) (l : List StepEntry) :
    runDirs (okEvents s l)
      = (l.filter (fun e => decide (e.name ∈ s))).map (fun e => e.dir) := by
  induction l with
  | nil => rfl
  | cons e es ih =>
    rcases e with ⟨n, d, pw, ps⟩
    by_cases hn : n ∈ s
    · cases pw with
      | none =>
        simp only [okEvents, if_pos hn, runDirs_append, ih, List.filter_cons]
        simp [hn, runDirs]
      | some pc =>
        simp only [okEvents, if_pos hn, runDirs_append, ih, List.filter_cons]
        simp [hn, runDirs]
    · simp only [okEvents, if_neg hn, runDirs_append, ih, List.filter_cons]
      simp [hn, runDirs]

/-- The launch directories of any run of some step entries form a prefix of
the launch directories of the all-successful run of the selected entries. -/
theorem chainRes_runDirs_front (o : Oracle) (s : List String) (l : List StepEntry) :
    runDirs (chainRes o s l).1
      <+: (l.filter (fun e => decide (e.name ∈ s))).map (fun e => e.dir) := by
  induction l with
  | nil => exact ⟨[], rfl⟩
  | cons e es ih =>
    rcases e with ⟨n, d, pw, ps⟩
    by_cases hn : n ∈ s
    · cases pw with
      | none =>
        by_cases hf : o.stepFails d
        · refine ⟨(es.filter (fun e => decide (e.name ∈ s))).map (fun e => e.dir), ?_⟩
          simp [chainRes, hn, hf, List.filter_cons, runDirs]
        · rcases ih with ⟨t, ht⟩
          refine ⟨t, ?_⟩
          simp only [chainRes, if_pos hn, if_neg hf, List.filter_cons]
          simp only [runDirs, List.filterMap_cons] at ht ⊢
          simp [hn, ← ht, runDirs]
      | some pc =>
        by_cases hw : o.writeFails
        · refine ⟨d :: (es.filter (fun e => decide (e.name ∈ s))).map
            (fun e => e.dir), ?_⟩
          simp [chainRes, hn, hw, List.filter_cons, runDirs]
        · by_cases hf : o.stepFails d
          · refine ⟨(es.filter (fun e => decide (e.name ∈ s))).map (fun e => e.dir), ?_⟩
            simp [chainRes, hn, hw, hf, List.filter_cons, runDirs]
          · rcases ih with ⟨t, ht⟩
            refine ⟨t, ?_⟩
            simp only [chainRes, if_pos hn, if_neg hw, if_neg hf, List.filter_cons]
            simp only [runDirs, List.filterMap_cons] at ht ⊢
            simp [hn, ← ht, runDirs]
    · simpa [chainRes, hn, List.filter_cons] using ih

theorem string_data_injective (a b : String) (h : a.data = b.data) : a = b := by
  cases a; cases b; cases h; rfl

/-- `pyJoin root` is injective in the step name. -/
theorem pyJoin_inj (root a b : String) (h : pyJoin root a = pyJoin root b) :
    a = b := by
  have hd : (pyJoin root a).data = (pyJoin root b).data := by rw [h]
  simp only [pyJoin, String.data_append] at hd
  exact string_data_injective _ _ (List.append_cancel_left hd)

/-- The filtered entry directories are the filtered step-order names joined
to the root. -/
theorem stepEntries_filter_dirs (cfg : Config) (rootPath : String) (s : List String) :
    ((stepEntries cfg rootPath).filter (fun e => decide (e.name ∈ s))).map
        (fun e => e.dir)
      = (stepOrder.filter (fun n => decide (n ∈ s))).map (pyJoin rootPath) := by
  simp only [stepEntries, downloadEntry, preprocessEntry, checkDataEntry,
    segregateEntry, randomForestEntry, evaluateEntry, stepOrder,
    List.filter_cons, List.filter_nil]
  split_ifs <;> rfl

/-- In an all-successful run, every selected entry's launch is in the
event list. -/
theorem mem_okEvents_run (s : List String) (l : List StepEntry) (e : StepEntry)
    (he : e ∈ l) (hn : e.name ∈ s) :
    Event.runStep e.dir "main" e.params ∈ okEvents s l := by
  induction l with
  | nil => cases he
  | cons e' es ih =>
    rcases List.mem_cons.mp he with h | h
    · subst h
      cases hpw : e.preWrite <;> simp [okEvents, hn, hpw]
    · simp only [okEvents, List.mem_append]
      right
      exact ih h

/-- In an all-successful run, a selected entry with a pre-write contributes
its file write immediately followed by its launch. -/
theorem sublist_okEvents_write_run (s : List String) (l : List StepEntry)
    (e : StepEntry) (pc : String × String) (he : e ∈ l) (hn : e.name ∈ s)
    (hpw : e.preWrite = some pc) :
    List.Sublist
      [Event.fileWrite pc.1 pc.2, Event.runStep e.dir "main" e.params]
      (okEvents s l) := by
  induction l with
  | nil => cases he
  | cons e' es ih =>
    rcases List.mem_cons.mp he with h | h
    · subst h
      simp only [okEvents, if_pos hn, hpw]
      have hsub := List.sublist_append_left
        ([Event.fileWrite pc.1 pc.2] ++ [Event.runStep e.dir "main" e.params])
        (okEvents s es)
      simp only [List.singleton_append] at hsub
      exact hsub
    · exact (ih h).trans (List.sublist_append_right _ _)

/-!
## Machinery: Python string splitting and joining
-/

/-- Joining a list of character strings with a one-character separator. -/
def joinChar (sep : Char) : List (List Char) → List Char
| [] => []
| [x] => x
| x :: y :: ys => x ++ sep :: joinChar sep (y :: ys)

/-- The same step names given as one comma-separated string. -/
def joinComma (ns : List String) : String :=
  String.mk (joinChar ',' (ns.map String.data))

theorem splitOnChar_ne_nil (sep : Char) (l : List Char) :
    splitOnChar sep l ≠ [] := by
  cases l with
  | nil => simp [splitOnChar]
  | cons c cs =>
    by_cases h : c = sep
    · simp [splitOnChar, h]
    · simp only [splitOnChar, if_neg h]
      cases splitOnChar sep cs <;> simp

theorem splitOnChar_no_sep (sep : Char) (l : List Char) (h : sep ∉ l) :
    splitOnChar sep l = [l] := by
  induction l with
  | nil => rfl
  | cons c cs ih =>
    have hc : ¬ c = sep := fun hc => h (by simp [hc])
    have hcs : sep ∉ cs := fun hm => h (List.mem_cons_of_mem _ hm)
    simp [splitOnChar, hc, ih hcs]

theorem splitOnChar_append_sep (sep : Char) (l r : List Char) (h : sep ∉ l) :
    splitOnChar sep (l ++ sep :: r) = l :: splitOnChar sep r := by
  induction l with
  | nil => simp [splitOnChar]
  | cons c cs ih =>
    have hc : ¬ c = sep := fun hc => h (by simp [hc])
    have hcs : sep ∉ cs := fun hm => h (List.mem_cons_of_mem _ hm)
    simp only [List.cons_append, splitOnChar, if_neg hc, List.append_eq, ih hcs]

theorem splitOnChar_joinChar (sep : Char) (xs : List (List Char))
    (hne : xs ≠ []) (h : ∀ x ∈ xs, sep ∉ x) :
    splitOnChar sep (joinChar sep xs) = xs := by
  induction xs with
  | nil => cases hne rfl
  | cons x ys ih =>
    cases ys with
    | nil =>
      simp only [joinChar]
      exact splitOnChar_no_sep sep x (h x (List.mem_cons_self _ _))
    | cons y zs =>
      simp only [joinChar]
      rw [splitOnChar_append_sep sep x _ (h x (List.mem_cons_self _ _))]
      rw [ih (by simp) (fun z hz => h z (List.mem_cons_of_mem _ hz))]

/-!
## Machinery: decimal numerals round-trip, YAML parsing
-/

/-- Reading a decimal numeral (no validation: used only on printed output). -/
def parseNatChars (cs : List Char) : Nat :=
  cs.foldl (fun a c => 10 * a + (c.toNat - 48)) 0

/-- Reading a possibly-negated decimal numeral. -/
def parseIntChars (cs : List Char) : Int :=
  match cs with
  | [] => 0
  | c :: rest =>
    if c = '-' then -(parseNatChars rest : Int) else (parseNatChars (c :: rest) : Int)

theorem digitChar_isDigit : ∀ d < 10, (digitChar d).isDigit = true := by decide

theorem digitChar_val : ∀ d < 10, (digitChar d).toNat - 48 = d := by decide

theorem foldr_digitChar_ofDigits (L : List Nat) (h : ∀ d ∈ L, d < 10) :
    L.foldr (fun d a => 10 * a + ((digitChar d).toNat - 48)) 0
      = Nat.ofDigits 10 L := by
  induction L with
  | nil => rfl
  | cons d L ih =>
    have hd : d < 10 := h d (List.mem_cons_self _ _)
    have hL : ∀ x ∈ L, x < 10 := fun x hx => h x (List.mem_cons_of_mem _ hx)
    simp only [List.foldr_cons, ih hL, digitChar_val d hd, Nat.ofDigits_cons]
    omega

theorem parseNat_natLit (n : Nat) : parseNatChars (natLit n) = n := by
  by_cases h : n = 0
  · subst h; rfl
  · have hd : ∀ d ∈ Nat.digits 10 n, d < 10 := by
      intro d hdm
      exact Nat.digits_lt_base (by norm_num) hdm
    simp only [natLit, if_neg h, parseNatChars, List.foldl_reverse, List.foldr_map]
    rw [foldr_digitChar_ofDigits _ hd, Nat.ofDigits_digits]

theorem natLit_isDigit (n : Nat) : ∀ c ∈ natLit n, c.isDigit = true := by
  intro c hc
  by_cases h : n = 0
  · subst h
    have hc0 : c = '0' := by simpa [natLit] using hc
    subst hc0; decide
  · simp only [natLit, if_neg h, List.mem_reverse, List.mem_map] at hc
    rcases hc with ⟨d, hdm, rfl⟩
    exact digitChar_isDigit d (Nat.digits_lt_base (by norm_num) hdm)

theorem natLit_ne_nil (n : Nat) : natLit n ≠ [] := by
  by_cases h : n = 0
  · subst h; simp [natLit]
  · simp only [natLit, if_neg h]
    simp [List.reverse_eq_nil_iff, Nat.digits_ne_nil_iff_ne_zero.mpr h]

theorem parseIntChars_neg (cs : List Char) :
    parseIntChars ('-' :: cs) = -(parseNatChars cs : Int) := by
  simp [parseIntChars]

theorem parseIntChars_nonneg (c : Char) (cs : List Char) (h : ¬ c = '-') :
    parseIntChars (c :: cs) = (parseNatChars (c :: cs) : Int) := by
  simp [parseIntChars, h]

theorem parseInt_intLit (i : Int) : parseIntChars (intLit i) = i := by
  by_cases h : i < 0
  · rw [intLit, if_pos h, parseIntChars_neg, parseNat_natLit]
    omega
  · rw [intLit, if_neg h]
    rcases hn : natLit i.natAbs with _ | ⟨c, rest⟩
    · exact absurd hn (natLit_ne_nil _)
    · have hcd : c.isDigit = true :=
        natLit_isDigit i.natAbs c (by rw [hn]; exact List.mem_cons_self _ _)
      have hcm : ¬ c = '-' := by
        intro hcc
        subst hcc
        simp at hcd
      rw [parseIntChars_nonneg c rest hcm, ← hn, parseNat_natLit]
      omega

theorem intLit_ne_newline (i : Int) : ∀ c ∈ intLit i, ¬ c = '\n' := by
  intro c hc
  by_cases h : i < 0
  · simp only [intLit, if_pos h, List.mem_cons] at hc
    rcases hc with rfl | hc
    · decide
    · have := natLit_isDigit i.natAbs c hc
      intro hcc; subst hcc; simp at this
  · simp only [intLit, if_neg h] at hc
    have := natLit_isDigit i.natAbs c hc
    intro hcc; subst hcc; simp at this

/-- Strips an expected literal from the front of a character list. -/
def dropPre : List Char → List Char → Option (List Char)
| [], rest => some rest
| _ :: _, [] => none
| p :: ps, c :: cs => if c = p then dropPre ps cs else none

theorem dropPre_append (p r : List Char) : dropPre p (p ++ r) = some r := by
  induction p with
  | nil => rfl
  | cons c cs ih => simp [dropPre, ih]

/-- A YAML reader for the serialized `random_forest_pipeline` section:
inverse direction of the round-trip property.  It accepts exactly the
shape `toYamlRFP` emits: a `random_forest:` header line, an indented
`random_state` entry, an `export_artifact` entry, and a trailing
newline. -/
def parseRFYaml (s : String) : Option RFPipelineConfig :=
  match splitOnChar '\n' s.data with
  | [l1, l2, l3, l4] =>
    if l1 = "random_forest:".data ∧ l4 = [] then
      match dropPre "  random_state: ".data l2, dropPre "export_artifact: ".data l3 with
      | some num, some ea =>
        some ⟨⟨parseIntChars num⟩, String.mk ea⟩
      | _, _ => none
    else none
  | _ => none

theorem toYaml_lines (rf : RFPipelineConfig)
    (hea : '\n' ∉ rf.export_artifact.data) :
    splitOnChar '\n' (toYamlRFPChars rf)
      = ["random_forest:".data,
         "  random_state: ".data ++ intLit rf.random_forest.random_state,
         "export_artifact: ".data ++ rf.export_artifact.data,
         []] := by
  have h1 : '\n' ∉ "random_forest:".data := by decide
  have h2 : '\n' ∉ "  random_state: ".data
      ++ intLit rf.random_forest.random_state := by
    intro hm
    rcases List.mem_append.mp hm with hm | hm
    · revert hm; decide
    · exact intLit_ne_newline _ '\n' hm rfl
  have h3 : '\n' ∉ "export_artifact: ".data ++ rf.export_artifact.data := by
    intro hm
    rcases List.mem_append.mp hm with hm | hm
    · revert hm; decide
    · exact hea hm
  have hnl : ∀ (as bs : List Char), ('\n' :: as) ++ bs = '\n' :: (as ++ bs) :=
    fun as bs => List.cons_append _ _ _
  rw [toYamlRFPChars]
  simp only [List.append_assoc]
  rw [hnl, hnl,
    splitOnChar_append_sep _ _ _ h1, splitOnChar_append_sep _ _ _ h2,
    splitOnChar_append_sep _ _ _ h3]
  rfl

/-- The serialized training configuration round-trips. -/
theorem parseRFYaml_toYaml (rf : RFPipelineConfig)
    (hea : '\n' ∉ rf.export_artifact.data) :
    parseRFYaml (toYamlRFP rf) = some rf := by
  have hs : splitOnChar '\n' (toYamlRFP rf).data
      = ["random_forest:".data,
         "  random_state: ".data ++ intLit rf.random_forest.random_state,
         "export_artifact: ".data ++ rf.export_artifact.data,
         []] := toYaml_lines rf hea
  simp only [parseRFYaml, hs, dropPre_append, parseInt_intLit, and_self, if_true]

/-!
## Concrete fixtures for witnesses and counterexamples
-/

/-- An environment in which every external action succeeds. -/
def okOracle : Oracle := ⟨false, fun _ => false⟩

/-- An environment in which the training-config file write fails and every
sub-process succeeds. -/
def writeFailOracle : Oracle := ⟨true, fun _ => false⟩

/-- A sample `data` section. -/
def sampleData : DataConfig :=
  ⟨"https://example.com/genres.parquet", "preprocessed_data.csv:latest",
   ⟨"0.05"⟩, ⟨"0.2"⟩, ⟨"0.3"⟩, true⟩

/-- A sample `random_forest_pipeline` section: `random_state = 13`. -/
def sampleRFP : RFPipelineConfig := ⟨⟨13⟩, "model_export"⟩

/-- A sample configuration with the given step selector; `random_seed = 42`. -/
def sampleConfig (es : ExecuteSteps) : Config :=
  ⟨⟨"genre_classification", "dev", es, 42⟩, sampleData, sampleRFP⟩

/-!
## The claims
-/

/-- The launch directories of any run form a prefix of the selected steps
in the fixed order, joined below the root path. -/
theorem go_runDirs_front (cfg : Config) (rootPath : String) (o : Oracle) :
    runDirs (go cfg rootPath o).1
      <+: (stepOrder.filter (fun n => decide (n ∈ stepsToExecute cfg))).map
            (pyJoin rootPath) := by
  rw [go_eq_chainRes]
  have h := chainRes_runDirs_front o (stepsToExecute cfg) (stepEntries cfg rootPath)
  rw [stepEntries_filter_dirs] at h
  simpa [runDirs_append, runDirs] using h

/-- C3: for every configuration and every step selector, the steps that are
invoked are invoked in the fixed hard-coded order download, preprocess,
check_data, segregate, random_forest, evaluate (the launch directories form
a prefix of the fixed order filtered by the selector), regardless of the
order in which step names appear in the selector. -/
theorem C3_fixed_invocation_order (cfg : Config) (rootPath : String) (o : Oracle) :
    runDirs (go cfg rootPath o).1
      <+: (stepOrder.filter (fun n => decide (n ∈ stepsToExecute cfg))).map
            (pyJoin rootPath) :=
  go_runDirs_front cfg rootPath o

/-- C6: only step names in the selector cause an invocation (a name not in
the selector is never launched), and if the selector contains none of the
six recognized names then no step is launched and no error is raised. -/
theorem C6_unrecognized_names_ignored (cfg : Config) (rootPath : String)
    (o : Oracle) (n : String) (hn : n ∉ stepsToExecute cfg) :
    pyJoin rootPath n ∉ runDirs (go cfg rootPath o).1 ∧
    ((∀ m ∈ stepOrder, m ∉ stepsToExecute cfg) →
      runDirs (go cfg rootPath o).1 = [] ∧ (go cfg rootPath o).2 = none) := by
  constructor
  · intro hmem
    rcases go_runDirs_front cfg rootPath o with ⟨t, ht⟩
    have hmem' : pyJoin rootPath n
        ∈ (stepOrder.filter (fun m => decide (m ∈ stepsToExecute cfg))).map
            (pyJoin rootPath) := by
      rw [← ht]
      exact List.mem_append_left t hmem
    rcases List.mem_map.mp hmem' with ⟨m, hmf, heq⟩
    have hmn : m = n := pyJoin_inj rootPath m n heq
    subst hmn
    exact hn (of_decide_eq_true (List.mem_filter.mp hmf).2)
  · intro hall
    have hnone : ∀ e ∈ stepEntries cfg rootPath, e.name ∉ stepsToExecute cfg := by
      intro e he
      fin_cases he <;>
        simp only [downloadEntry, preprocessEntry, checkDataEntry, segregateEntry,
          randomForestEntry, evaluateEntry] <;>
        exact hall _ (by decide)
    have hsel : ∀ e ∈ stepEntries cfg rootPath,
        e.name ∈ stepsToExecute cfg → o.stepFails e.dir = false := by
      intro e he hm
      exact absurd hm (hnone e he)
    have hwr : ∀ e ∈ stepEntries cfg rootPath,
        e.name ∈ stepsToExecute cfg → e.preWrite ≠ none → o.writeFails = false := by
      intro e he hm
      exact absurd hm (hnone e he)
    have hempty : okEvents (stepsToExecute cfg) (stepEntries cfg rootPath) = [] := by
      have : ∀ l : List StepEntry, (∀ e ∈ l, e.name ∉ stepsToExecute cfg) →
          okEvents (stepsToExecute cfg) l = [] := by
        intro l
        induction l with
        | nil => intro _; rfl
        | cons e es ih =>
          intro h
          have he : e.name ∉ stepsToExecute cfg := h e (List.mem_cons_self _ _)
          simp [okEvents, he, ih (fun e' he' => h e' (List.mem_cons_of_mem _ he'))]
      exact this _ hnone
    rw [go_eq_chainRes, chainRes_allok o _ _ hsel hwr, hempty]
    simp [runDirs]

/-- Witness for C6, at the selector `"bogus_step"`: the download step is
not launched, no step at all is launched, and no error is raised. -/
theorem C6_witness :
    pyJoin "root" "download"
        ∉ runDirs (go (sampleConfig (ExecuteSteps.commaString "bogus_step"))
            "root" okOracle).1
    ∧ runDirs (go (sampleConfig (ExecuteSteps.commaString "bogus_step"))
          "root" okOracle).1 = []
    ∧ (go (sampleConfig (ExecuteSteps.commaString "bogus_step"))
          "root" okOracle).2 = none := by
  have h := C6_unrecognized_names_ignored
    (sampleConfig (ExecuteSteps.commaString "bogus_step")) "root" okOracle
    "download" (by decide)
  exact ⟨h.1, h.2 (by decide)⟩

/-- C4: with the selector string `"download,preprocess"` and a failure-free
environment, exactly two steps are launched, download then preprocess, and
the preprocess step's `input_artifact` parameter is the literal
`"raw_data.parquet:latest"`. -/
theorem C4_download_preprocess (cfg : Config) (rootPath : String) (o : Oracle)
    (hsel : cfg.main.execute_steps = ExecuteSteps.commaString "download,preprocess")
    (hw : o.writeFails = false) (hs : ∀ d, o.stepFails d = false) :
    runEvts (go cfg rootPath o).1
      = [(pyJoin rootPath "download", "main", downloadParams cfg),
         (pyJoin rootPath "preprocess", "main", preprocessParams)]
    ∧ List.lookup "input_artifact" preprocessParams
        = some (PVal.s "raw_data.parquet:latest") := by
  have hsteps : stepsToExecute cfg = ["download", "preprocess"] := by
    simp only [stepsToExecute, hsel]
    decide
  constructor
  · rw [go_eq_chainRes, hsteps,
      chainRes_allok o _ _ (fun e _ _ => hs e.dir) (fun _ _ _ _ => hw)]
    simp +decide [runEvts, okEvents, stepEntries, downloadEntry, preprocessEntry,
      checkDataEntry, segregateEntry, randomForestEntry, evaluateEntry]
  · rfl

/-- A configuration selecting `"download,preprocess"` as a comma string. -/
def dlppConfig : Config := sampleConfig (ExecuteSteps.commaString "download,preprocess")

/-- Witness for C4 at a concrete configuration. -/
theorem C4_witness :
    runEvts (go dlppConfig "root" okOracle).1
      = [(pyJoin "root" "download", "main", downloadParams dlppConfig),
         (pyJoin "root" "preprocess", "main", preprocessParams)]
    ∧ List.lookup "input_artifact" preprocessParams
        = some (PVal.s "raw_data.parquet:latest") :=
  C4_download_preprocess dlppConfig "root" okOracle rfl rfl (fun _ => rfl)

/-- C5: whenever the segregate step is selected and the run reaches it, its
parameter mapping has `test_size` equal to the configured data test
fraction, `stratify` equal to the configured stratify flag, `artifact_root`
equal to the literal `"data"`, and `random_state` equal to the seed from
the `random_forest_pipeline` (training) section. -/
theorem C5_segregate_parameters (cfg : Config) (rootPath : String) (o : Oracle)
    (hsel : "segregate" ∈ stepsToExecute cfg)
    (hw : o.writeFails = false) (hs : ∀ d, o.stepFails d = false) :
    ∃ ps, Event.runStep (pyJoin rootPath "segregate") "main" ps
        ∈ (go cfg rootPath o).1
      ∧ List.lookup "test_size" ps = some (PVal.f cfg.data.test_size)
      ∧ List.lookup "stratify" ps = some (PVal.b cfg.data.stratify)
      ∧ List.lookup "artifact_root" ps = some (PVal.s "data")
      ∧ List.lookup "random_state" ps
          = some (PVal.i cfg.random_forest_pipeline.random_forest.random_state) := by
  refine ⟨segregateParams cfg, ?_, rfl, rfl, rfl, rfl⟩
  rw [go_eq_chainRes,
    chainRes_allok o _ _ (fun e _ _ => hs e.dir) (fun _ _ _ _ => hw)]
  have hm := mem_okEvents_run (stepsToExecute cfg) (stepEntries cfg rootPath)
    (segregateEntry cfg rootPath) (by simp [stepEntries])
    (by simpa [segregateEntry] using hsel)
  simp only [segregateEntry] at hm
  exact List.mem_append_right _ hm

/-- A configuration selecting only the segregate step. -/
def segConfig : Config := sampleConfig (ExecuteSteps.commaString "segregate")

/-- Witness for C5 at a concrete configuration. -/
theorem C5_witness :
    ∃ ps, Event.runStep (pyJoin "root" "segregate") "main" ps
        ∈ (go segConfig "root" okOracle).1
      ∧ List.lookup "test_size" ps = some (PVal.f segConfig.data.test_size)
      ∧ List.lookup "stratify" ps = some (PVal.b segConfig.data.stratify)
      ∧ List.lookup "artifact_root" ps = some (PVal.s "data")
      ∧ List.lookup "random_state" ps
          = some (PVal.i segConfig.random_forest_pipeline.random_forest.random_state) :=
  C5_segregate_parameters segConfig "root" okOracle (by decide) rfl (fun _ => rfl)

/-- C9: the comma-splitting of a string selector does not trim whitespace:
with the selector string `"download, preprocess"` the second token is
`" preprocess"`, which matches no recognized step, so only download is
launched. -/
theorem C9_no_whitespace_trimming (cfg : Config) (rootPath : String) (o : Oracle)
    (hsel : cfg.main.execute_steps = ExecuteSteps.commaString "download, preprocess")
    (hw : o.writeFails = false) (hs : ∀ d, o.stepFails d = false) :
    stepsToExecute cfg = ["download", " preprocess"]
    ∧ runEvts (go cfg rootPath o).1
        = [(pyJoin rootPath "download", "main", downloadParams cfg)] := by
  have hsteps : stepsToExecute cfg = ["download", " preprocess"] := by
    simp only [stepsToExecute, hsel]
    decide
  refine ⟨hsteps, ?_⟩
  rw [go_eq_chainRes, hsteps,
    chainRes_allok o _ _ (fun e _ _ => hs e.dir) (fun _ _ _ _ => hw)]
  simp +decide [runEvts, okEvents, stepEntries, downloadEntry, preprocessEntry,
    checkDataEntry, segregateEntry, randomForestEntry, evaluateEntry]

/-- A configuration whose selector string has a space after the comma. -/
def spacedConfig : Config :=
  sampleConfig (ExecuteSteps.commaString "download, preprocess")

/-- Witness for C9 at a concrete configuration. -/
theorem C9_witness :
    stepsToExecute spacedConfig = ["download", " preprocess"]
    ∧ runEvts (go spacedConfig "root" okOracle).1
        = [(pyJoin "root" "download", "main", downloadParams spacedConfig)] :=
  C9_no_whitespace_trimming spacedConfig "root" okOracle rfl rfl (fun _ => rfl)

/-- A configuration selecting segregate and random_forest: its segregate
seed (`random_forest_pipeline.random_forest.random_state = 13`) differs
from its training seed (`main.random_seed = 42`). -/
def seedsConfig : Config :=
  sampleConfig (ExecuteSteps.steplist ["segregate", "random_forest"])

/-- C10: the segregate step's `random_state` comes from the
`random_forest_pipeline.random_forest.random_state` key while the
random_forest step's `random_seed` comes from `main.random_seed`; on
`seedsConfig` the two launched steps carry different seed values. -/
theorem C10_two_seed_sources :
    ∃ ps qs,
      Event.runStep (pyJoin "root" "segregate") "main" ps
          ∈ (go seedsConfig "root" okOracle).1
      ∧ Event.runStep (pyJoin "root" "random_forest") "main" qs
          ∈ (go seedsConfig "root" okOracle).1
      ∧ List.lookup "random_state" ps
          = some (PVal.i seedsConfig.random_forest_pipeline.random_forest.random_state)
      ∧ List.lookup "random_seed" qs = some (PVal.i seedsConfig.main.random_seed)
      ∧ List.lookup "random_state" ps ≠ List.lookup "random_seed" qs := by
  refine ⟨segregateParams seedsConfig, randomForestParams seedsConfig,
    by decide, by decide, by decide, by decide, by decide⟩

/-- C7: whenever the random_forest step is selected and the run reaches it,
the YAML serialization of the `random_forest_pipeline` section is written
to the fixed path before the step is launched, and parsing the written
content reproduces exactly the serialized section. -/
theorem C7_yaml_roundtrip (cfg : Config) (rootPath : String) (o : Oracle)
    (hsel : "random_forest" ∈ stepsToExecute cfg)
    (hw : o.writeFails = false) (hs : ∀ d, o.stepFails d = false)
    (hea : '\n' ∉ cfg.random_forest_pipeline.export_artifact.data) :
    List.Sublist
      [Event.fileWrite modelConfigPath (toYamlRFP cfg.random_forest_pipeline),
       Event.runStep (pyJoin rootPath "random_forest") "main"
         (randomForestParams cfg)]
      (go cfg rootPath o).1
    ∧ parseRFYaml (toYamlRFP cfg.random_forest_pipeline)
        = some cfg.random_forest_pipeline := by
  constructor
  · rw [go_eq_chainRes,
      chainRes_allok o _ _ (fun e _ _ => hs e.dir) (fun _ _ _ _ => hw)]
    have hsub := sublist_okEvents_write_run (stepsToExecute cfg)
      (stepEntries cfg rootPath) (randomForestEntry cfg rootPath)
      (modelConfigPath, toYamlRFP cfg.random_forest_pipeline)
      (by simp [stepEntries]) (by simpa [randomForestEntry] using hsel) rfl
    simp only [randomForestEntry] at hsub
    exact hsub.trans (List.sublist_append_right _ _)
  · exact parseRFYaml_toYaml _ hea

/-- A configuration selecting only the random_forest step. -/
def rfOnlyConfig : Config := sampleConfig (ExecuteSteps.steplist ["random_forest"])

/-- Witness for C7 at a concrete configuration. -/
theorem C7_witness :
    List.Sublist
      [Event.fileWrite modelConfigPath (toYamlRFP rfOnlyConfig.random_forest_pipeline),
       Event.runStep (pyJoin "root" "random_forest") "main"
         (randomForestParams rfOnlyConfig)]
      (go rfOnlyConfig "root" okOracle).1
    ∧ parseRFYaml (toYamlRFP rfOnlyConfig.random_forest_pipeline)
        = some rfOnlyConfig.random_forest_pipeline :=
  C7_yaml_roundtrip rfOnlyConfig "root" okOracle (by decide) rfl (fun _ => rfl)
    (by decide)

/-- C2: a comma-separated string selector and the same step names as a
native list produce identical runs (in particular the same executed
steps).  The names are assumed comma-free and nonempty, as any list of
actual step names is. -/
theorem C2_string_equals_list (pn en : String) (seed : Int) (d : DataConfig)
    (rfp : RFPipelineConfig) (rootPath : String) (o : Oracle) (ns : List String)
    (h1 : ns ≠ []) (h2 : ∀ n ∈ ns, ',' ∉ n.data) :
    go ⟨⟨pn, en, ExecuteSteps.commaString (joinComma ns), seed⟩, d, rfp⟩ rootPath o
      = go ⟨⟨pn, en, ExecuteSteps.steplist ns, seed⟩, d, rfp⟩ rootPath o := by
  have hmk : ∀ n : String, String.mk n.data = n := fun n => rfl
  have hsteps : stepsToExecute
      ⟨⟨pn, en, ExecuteSteps.commaString (joinComma ns), seed⟩, d, rfp⟩ = ns := by
    simp only [stepsToExecute, joinComma]
    rw [splitOnChar_joinChar ',' _ (by simpa using h1) (by
      intro x hx
      rcases List.mem_map.mp hx with ⟨n, hn, rfl⟩
      exact h2 n hn)]
    simp only [List.map_map]
    rw [show String.mk ∘ String.data = id from funext hmk, List.map_id]
  show goSteps _ rootPath o (stepsToExecute _) = goSteps _ rootPath o (stepsToExecute _)
  rw [hsteps]
  rfl

/-- Witness for C2 at the names `["download", "evaluate"]`. -/
theorem C2_witness :
    go ⟨⟨"p", "e", ExecuteSteps.commaString (joinComma ["download", "evaluate"]), 7⟩,
        sampleData, sampleRFP⟩ "root" okOracle
      = go ⟨⟨"p", "e", ExecuteSteps.steplist ["download", "evaluate"], 7⟩,
          sampleData, sampleRFP⟩ "root" okOracle :=
  C2_string_equals_list "p" "e" 7 sampleData sampleRFP "root" okOracle
    ["download", "evaluate"] (by decide) (by decide)

/-!
## C1 and C8: aborting behaviour
-/

/-- Running a chain whose first failing entry is `eF`: everything before it
succeeds, `eF` launches and fails, nothing after it runs. -/
theorem chainRes_first_fail (o : Oracle) (s : List String)
    (pre post : List StepEntry) (eF : StepEntry)
    (hsPre : ∀ e ∈ pre, e.name ∈ s → o.stepFails e.dir = false)
    (hwPre : ∀ e ∈ pre, e.name ∈ s → e.preWrite ≠ none → o.writeFails = false)
    (hself : eF.name ∈ s) (hFf : o.stepFails eF.dir = true)
    (hFw : eF.preWrite ≠ none → o.writeFails = false) :
    chainRes o s (pre ++ eF :: post)
      = (okEvents s pre
          ++ (match eF.preWrite with
              | some pc => [Event.fileWrite pc.1 pc.2]
              | none => [])
          ++ [Event.runStep eF.dir "main" eF.params],
         some (Failure.stepFailed eF.dir)) := by
  have hpre := chainRes_allok o s pre hsPre hwPre
  have htail : chainRes o s (eF :: post)
      = ((match eF.preWrite with
          | some pc => [Event.fileWrite pc.1 pc.2]
          | none => [])
          ++ [Event.runStep eF.dir "main" eF.params],
         some (Failure.stepFailed eF.dir)) := by
    rcases eF with ⟨n, dd, pw, ps⟩
    cases pw with
    | none => simp_all [chainRes]
    | some pc =>
      have hwf : o.writeFails = false := hFw (by simp)
      simp_all [chainRes]
  rw [chainRes_append_ok o s pre (eF :: post) (by rw [hpre]), hpre, htail]
  simp [List.append_assoc]

/-- The entry of `main.py`'s `if` block for a given recognized step name. -/
def entryOf (cfg : Config) (rootPath : String) (n : String) : StepEntry :=
  if n = "download" then downloadEntry cfg rootPath
  else if n = "preprocess" then preprocessEntry rootPath
  else if n = "check_data" then checkDataEntry cfg rootPath
  else if n = "segregate" then segregateEntry cfg rootPath
  else if n = "random_forest" then randomForestEntry cfg rootPath
  else evaluateEntry cfg rootPath

theorem stepEntries_eq_map (cfg : Config) (rootPath : String) :
    stepEntries cfg rootPath = stepOrder.map (entryOf cfg rootPath) := rfl

theorem entryOf_name (cfg : Config) (rootPath : String) :
    ∀ n ∈ stepOrder, (entryOf cfg rootPath n).name = n := by
  intro n hn
  fin_cases hn <;> rfl

theorem entryOf_dir (cfg : Config) (rootPath : String) :
    ∀ n ∈ stepOrder, (entryOf cfg rootPath n).dir = pyJoin rootPath n := by
  intro n hn
  fin_cases hn <;> rfl

theorem filter_map_entryOf (cfg : Config) (rootPath : String) (s : List String)
    (l : List String) (hl : ∀ g ∈ l, g ∈ stepOrder) :
    ((l.map (entryOf cfg rootPath)).filter (fun e => decide (e.name ∈ s))).map
        (fun e => e.dir)
      = (l.filter (fun g => decide (g ∈ s))).map (pyJoin rootPath) := by
  induction l with
  | nil => rfl
  | cons g l ih =>
    have hg : g ∈ stepOrder := hl g (List.mem_cons_self _ _)
    have hrest : ∀ g' ∈ l, g' ∈ stepOrder :=
      fun g' hg' => hl g' (List.mem_cons_of_mem _ hg')
    simp only [List.map_cons, List.filter_cons, entryOf_name cfg rootPath g hg]
    by_cases hgs : g ∈ s
    · simp [hgs, entryOf_dir cfg rootPath g hg, ih hrest]
    · simp [hgs, ih hrest]

/-- C8: if the first failing step is `f` (all selected steps before it in
the fixed order succeed, and the config-file write succeeds), the run ends
with exactly that step's failure, and the launches are exactly the selected
steps before `f` in order followed by `f` itself — nothing after `f` is
launched. -/
theorem C8_step_failure_aborts_rest (cfg : Config) (rootPath : String) (o : Oracle)
    (l₁ l₂ : List String) (f : String)
    (horder : stepOrder = l₁ ++ f :: l₂)
    (hw : o.writeFails = false)
    (hsel : f ∈ stepsToExecute cfg)
    (hf : o.stepFails (pyJoin rootPath f) = true)
    (hok : ∀ g ∈ l₁, o.stepFails (pyJoin rootPath g) = false) :
    (go cfg rootPath o).2 = some (Failure.stepFailed (pyJoin rootPath f))
    ∧ runDirs (go cfg rootPath o).1
        = ((l₁.filter (fun g => decide (g ∈ stepsToExecute cfg))).map
            (pyJoin rootPath))
          ++ [pyJoin rootPath f] := by
  have hl₁ : ∀ g ∈ l₁, g ∈ stepOrder := by
    intro g hg
    rw [horder]
    exact List.mem_append_left _ hg
  have hfo : f ∈ stepOrder := by
    rw [horder]
    exact List.mem_append_right _ (List.mem_cons_self _ _)
  have hsplit : stepEntries cfg rootPath
      = l₁.map (entryOf cfg rootPath)
        ++ entryOf cfg rootPath f :: l₂.map (entryOf cfg rootPath) := by
    rw [stepEntries_eq_map, horder]
    simp
  have hcc := chainRes_first_fail o (stepsToExecute cfg)
    (l₁.map (entryOf cfg rootPath)) (l₂.map (entryOf cfg rootPath))
    (entryOf cfg rootPath f)
    (by
      intro e he hn
      rcases List.mem_map.mp he with ⟨g, hg, rfl⟩
      rw [entryOf_dir cfg rootPath g (hl₁ g hg)]
      exact hok g hg)
    (fun _ _ _ _ => hw)
    (by rw [entryOf_name cfg rootPath f hfo]; exact hsel)
    (by rw [entryOf_dir cfg rootPath f hfo]; exact hf)
    (fun _ => hw)
  rw [go_eq_chainRes, hsplit, hcc]
  constructor
  · simp [entryOf_dir cfg rootPath f hfo]
  · simp only [runDirs_append, runDirs_okEvents, filter_map_entryOf cfg rootPath _ l₁ hl₁]
    rcases hpw : (entryOf cfg rootPath f).preWrite with _ | pc
    · simp [runDirs, entryOf_dir cfg rootPath f hfo]
    · simp [runDirs, entryOf_dir cfg rootPath f hfo]

/-- An environment in which only the preprocess step's sub-process fails. -/
def ppFailOracle : Oracle := ⟨false, fun d => d == pyJoin "root" "preprocess"⟩

/-- A configuration selecting all six steps as a native list. -/
def allStepsConfig : Config := sampleConfig (ExecuteSteps.steplist stepOrder)

/-- Witness for C8: with every step selected and preprocess failing, the
run ends with preprocess's failure and only download and preprocess were
launched. -/
theorem C8_witness :
    (go allStepsConfig "root" ppFailOracle).2
        = some (Failure.stepFailed (pyJoin "root" "preprocess"))
    ∧ runDirs (go allStepsConfig "root" ppFailOracle).1
        = ((["download"].filter
              (fun g => decide (g ∈ stepsToExecute allStepsConfig))).map
            (pyJoin "root"))
          ++ [pyJoin "root" "preprocess"] :=
  C8_step_failure_aborts_rest allStepsConfig "root" ppFailOracle
    ["download"] ["check_data", "segregate", "random_forest", "evaluate"]
    "preprocess" rfl rfl (by decide) (by decide) (by decide)

/-- C1 as stated is false: with the selector `["download", "random_forest"]`
and an unwritable training-config path, the run does abort with the write
failure before the training step launches, but the download step's
sub-process has already been launched, so it is not true that no step is
invoked at all. -/
theorem C1_counterexample :
    (go (sampleConfig (ExecuteSteps.steplist ["download", "random_forest"]))
        "root" writeFailOracle).2 = some (Failure.writeFailed modelConfigPath)
    ∧ runDirs (go (sampleConfig (ExecuteSteps.steplist ["download", "random_forest"]))
          "root" writeFailOracle).1 = [pyJoin "root" "download"]
    ∧ runDirs (go (sampleConfig (ExecuteSteps.steplist ["download", "random_forest"]))
          "root" writeFailOracle).1 ≠ [] := by
  refine ⟨by decide, by decide, by decide⟩

/-- C1 (amended): if the training-config file cannot be written and the
training step is selected (all launched sub-processes succeeding), the run
terminates with the fatal write failure before the training step's
sub-process launch: neither random_forest nor evaluate is ever launched
(steps earlier in the fixed order that were selected have already run). -/
theorem C1_amended_write_failure (cfg : Config) (rootPath : String) (o : Oracle)
    (hw : o.writeFails = true) (hs : ∀ d, o.stepFails d = false)
    (hsel : "random_forest" ∈ stepsToExecute cfg) :
    (go cfg rootPath o).2 = some (Failure.writeFailed modelConfigPath)
    ∧ pyJoin rootPath "random_forest" ∉ runDirs (go cfg rootPath o).1
    ∧ pyJoin rootPath "evaluate" ∉ runDirs (go cfg rootPath o).1 := by
  have hpre : chainRes o (stepsToExecute cfg)
      [downloadEntry cfg rootPath, preprocessEntry rootPath,
       checkDataEntry cfg rootPath, segregateEntry cfg rootPath]
      = (okEvents (stepsToExecute cfg)
          [downloadEntry cfg rootPath, preprocessEntry rootPath,
           checkDataEntry cfg rootPath, segregateEntry cfg rootPath], none) := by
    refine chainRes_allok o _ _ (fun e _ _ => hs e.dir) ?_
    intro e he _ hp
    exfalso
    fin_cases he <;>
      simp [downloadEntry, preprocessEntry, checkDataEntry, segregateEntry] at hp
  have htail : chainRes o (stepsToExecute cfg)
      [randomForestEntry cfg rootPath, evaluateEntry cfg rootPath]
      = ([], some (Failure.writeFailed modelConfigPath)) := by
    simp [chainRes, randomForestEntry, hw, hsel]
  have hsplit : stepEntries cfg rootPath
      = [downloadEntry cfg rootPath, preprocessEntry rootPath,
         checkDataEntry cfg rootPath, segregateEntry cfg rootPath]
        ++ [randomForestEntry cfg rootPath, evaluateEntry cfg rootPath] := rfl
  rw [go_eq_chainRes, hsplit,
    chainRes_append_ok o _ _ _ (by rw [hpre]), hpre, htail]
  have hnames : ∀ m : String, m ∉ (["download", "preprocess", "check_data",
      "segregate"] : List String) →
      pyJoin rootPath m
        ∉ runDirs (okEvents (stepsToExecute cfg)
            [downloadEntry cfg rootPath, preprocessEntry rootPath,
             checkDataEntry cfg rootPath, segregateEntry cfg rootPath]) := by
    intro m hm hmem
    rw [runDirs_okEvents] at hmem
    rcases List.mem_map.mp hmem with ⟨e, hef, heq⟩
    have hel := List.mem_of_mem_filter hef
    apply hm
    fin_cases hel
    · have := pyJoin_inj rootPath "download" m
        (by simpa [downloadEntry] using heq)
      rw [← this]; decide
    · have := pyJoin_inj rootPath "preprocess" m
        (by simpa [preprocessEntry] using heq)
      rw [← this]; decide
    · have := pyJoin_inj rootPath "check_data" m
        (by simpa [checkDataEntry] using heq)
      rw [← this]; decide
    · have := pyJoin_inj rootPath "segregate" m
        (by simpa [segregateEntry] using heq)
      rw [← this]; decide
  refine ⟨rfl, ?_, ?_⟩
  · have h := hnames "random_forest" (by decide)
    simpa [runDirs_append, runDirs] using h
  · have h := hnames "evaluate" (by decide)
    simpa [runDirs_append, runDirs] using h

/-- A configuration selecting only the random_forest step. -/
def rfSoloConfig : Config := sampleConfig (ExecuteSteps.commaString "random_forest")

/-- Witness for the amended C1 at a concrete configuration. -/
theorem C1_witness :
    (go rfSoloConfig "root" writeFailOracle).2
        = some (Failure.writeFailed modelConfigPath)
    ∧ pyJoin "root" "random_forest"
        ∉ runDirs (go rfSoloConfig "root" writeFailOracle).1
    ∧ pyJoin "root" "evaluate"
        ∉ runDirs (go rfSoloConfig "root" writeFailOracle).1 :=
  C1_amended_write_failure rfSoloConfig "root" writeFailOracle rfl
    (fun _ => rfl) (by decide)

end GenreClassification
